import Mathlib

/-!
Verification of the category inclusion rule store and the ranked monthly
aggregation of the tazrim finance dashboard.

The rule store is embedded from `src/frontend/src/utils/bankFilters.js`
(`defaultRule`, `normalizeRule`, `loadBankCategoryRules`,
`saveBankCategoryRules`, `isCategoryChecked`, `applyRule`, `toggleRule`,
`selectAllRule`, `clearAllRule`).  The aggregation and trend summary are
embedded from `src/frontend/src/pages/BankCategoriesReport.jsx`
(`chartData`, `trendMonths`, `trendSeries`, `trendActiveSeries`,
`trendTotal`, `trendAverage`, `trendHighest`, `trendLowest`).

Modelling conventions:
* Category names and month keys are `String`s; the only falsy string is
  `""`, so the JavaScript guard `if (!name)` is embedded as `name = ""`.
* Monetary totals are integers (`Int`); `Number(x || 0)` is the identity
  on integer totals (it maps `0` to `0` and keeps any other number), so
  it is elided.  The one genuinely rational quantity, `trendAverage`,
  lives in `ℚ`.
* `localStorage` is modelled as an explicit storage state (`Stored`):
  a missing/empty value, an unparseable value, or a parsed JSON object
  whose per-direction members are arbitrary JavaScript values as far as
  `normalizeRule` can observe them (`RawRule`).
* JavaScript's `Array.prototype.sort` is stable (ES2019), so the chart
  sort `(a, b) => b.value - a.value` is embedded as a stable insertion
  sort by descending value (`List.insertionSort` with `stackOrder`).
* `new Set(...)` results are embedded as `Finset String`.
-/

namespace Tazrim

/-- The three rule modes of a `CategoryRule` (`"all"`, `"none"`, `"custom"`). -/
inductive Mode where
  | all
  | none
  | custom
  deriving DecidableEq

/-- A normalized category rule: `{mode, excluded, included}`. -/
structure Rule where
  mode : Mode
  excluded : List String
  included : List String
  deriving DecidableEq

/-- `defaultRule()` from bankFilters.js: `{mode: "all", excluded: [], included: []}`. -/
def defaultRule : Rule := ⟨Mode.all, [], []⟩

/-- What `normalizeRule` can observe of a parsed per-direction JSON member
that is a (truthy) object: its `mode` member when it is a string (`none`
models an absent or non-string `mode`, which fails all three `===`
comparisons), and its `excluded`/`included` members when they are arrays
(`none` models `Array.isArray` failing). -/
structure RawRuleObj where
  mode : Option String
  excluded : Option (List String)
  included : Option (List String)
  deriving DecidableEq

/-- A parsed per-direction JSON member as seen by `normalizeRule`:
`invalid` models a falsy or non-object value (including an absent key). -/
inductive RawRule where
  | invalid
  | obj (o : RawRuleObj)
  deriving DecidableEq

/-- `normalizeRule(rule)` from bankFilters.js: a falsy or non-object value
becomes `defaultRule()`; otherwise `mode` is kept when it is one of
`"all" | "none" | "custom"` (else coerced to `"all"`), and non-array
`excluded`/`included` members are coerced to `[]`. -/
def normalizeRule : RawRule → Rule
  | .invalid => defaultRule
  | .obj o =>
    { mode :=
        if o.mode = some "all" then Mode.all
        else if o.mode = some "none" then Mode.none
        else if o.mode = some "custom" then Mode.custom
        else Mode.all,
      excluded := o.excluded.getD [],
      included := o.included.getD [] }

/-- The persisted `localStorage` value under `"bankCategoryRules"`:
`absent` models a missing key or empty string (the `if (!raw)` branch),
`unparseable` a value on which `JSON.parse` throws, and `parsed` a parsed
JSON value with its two optional-chained members `parsed?.income` and
`parsed?.expense` (a non-object parse result is `parsed .invalid .invalid`). -/
inductive Stored where
  | absent
  | unparseable
  | parsed (income expense : RawRule)
  deriving DecidableEq

/-- The in-memory pair of per-direction rules. -/
structure RulePair where
  income : Rule
  expense : Rule
  deriving DecidableEq

/-- `loadBankCategoryRules()` from bankFilters.js, with the storage state
made explicit.  (The `typeof window === "undefined"` guard likewise
returns the default pair and is subsumed by `absent`.) -/
def loadBankCategoryRules : Stored → RulePair
  | .absent => ⟨defaultRule, defaultRule⟩
  | .unparseable => ⟨defaultRule, defaultRule⟩
  | .parsed inc exp => ⟨normalizeRule inc, normalizeRule exp⟩

/-- A list of raw per-direction members, as passed to `saveBankCategoryRules`. -/
structure RawRulePair where
  income : RawRule
  expense : RawRule
  deriving DecidableEq

/-- `modeString` renders a `Mode` back to its JSON string. -/
def modeString : Mode → String
  | .all => "all"
  | .none => "none"
  | .custom => "custom"

/-- The JSON object written for a normalized rule; `JSON.stringify` followed
by `JSON.parse` round-trips this shape of plain strings and string arrays
faithfully, so the stored image of a rule is its fields, all present. -/
def ruleToRaw (r : Rule) : RawRule :=
  .obj ⟨some (modeString r.mode), some r.excluded, some r.included⟩

/-- `saveBankCategoryRules(rules)` from bankFilters.js: normalizes both
directions and persists the JSON encoding (write failures leave the
previous state, which the claims do not depend on). -/
def saveBankCategoryRules (rules : RawRulePair) : Stored :=
  .parsed (ruleToRaw (normalizeRule rules.income)) (ruleToRaw (normalizeRule rules.expense))

/-- `isCategoryChecked(rule, name)` from bankFilters.js; `if (!name)` is the
`name = ""` test on strings. -/
def isCategoryChecked (rule : Rule) (nm : String) : Bool :=
  if nm = "" then false
  else
    match rule.mode with
    | .none => decide (nm ∈ rule.included)
    | .custom => decide (nm ∈ rule.included)
    | .all => !decide (nm ∈ rule.excluded)

/-- The `availableNames` argument of `applyRule`, which the code first
checks with `Array.isArray`. -/
inductive JSArray where
  | arr (names : List String)
  | notArray
  deriving DecidableEq

/-- `applyRule(rule, availableNames)` from bankFilters.js: a non-array
universe yields the empty set; otherwise `none`/`custom` keep the
available names listed in `included`, and `all` keeps the available names
not listed in `excluded`. -/
def applyRule (rule : Rule) (availableNames : JSArray) : Finset String :=
  match availableNames with
  | .notArray => ∅
  | .arr names =>
    match rule.mode with
    | .none => (names.filter (fun nm => decide (nm ∈ rule.included))).toFinset
    | .custom => (names.filter (fun nm => decide (nm ∈ rule.included))).toFinset
    | .all => (names.filter (fun nm => !decide (nm ∈ rule.excluded))).toFinset

/-- `toggleRule(rule, name)` from bankFilters.js. -/
def toggleRule (rule : Rule) (nm : String) : Rule :=
  let checked := isCategoryChecked rule nm
  match rule.mode with
  | .all =>
    if checked then { rule with excluded := rule.excluded ++ [nm] }
    else { rule with excluded := rule.excluded.filter (fun item => decide (item ≠ nm)) }
  | .none =>
    if checked then
      ⟨Mode.none, [], rule.included.filter (fun item => decide (item ≠ nm))⟩
    else ⟨Mode.custom, [], rule.included ++ [nm]⟩
  | .custom =>
    if checked then
      let nextIncluded := rule.included.filter (fun item => decide (item ≠ nm))
      if nextIncluded.length = 0 then ⟨Mode.none, [], []⟩
      else ⟨Mode.custom, [], nextIncluded⟩
    else ⟨Mode.custom, [], rule.included ++ [nm]⟩

/-- `selectAllRule()` from bankFilters.js. -/
def selectAllRule : Rule := ⟨Mode.all, [], []⟩

/-- `clearAllRule()` from bankFilters.js. -/
def clearAllRule : Rule := ⟨Mode.none, [], []⟩

/-- A raw per-direction member is structurally valid when it is an object
whose `mode` is one of the three recognized strings and whose
`excluded`/`included` members are arrays. -/
def structValid : RawRule → Prop
  | .invalid => False
  | .obj o =>
    (o.mode = some "all" ∨ o.mode = some "none" ∨ o.mode = some "custom")
      ∧ o.excluded.isSome ∧ o.included.isSome

instance : DecidablePred structValid := fun r =>
  match r with
  | .invalid => inferInstanceAs (Decidable False)
  | .obj _ => inferInstanceAs (Decidable (_ ∧ _ ∧ _))

/-! ### Ranked monthly aggregation (`chartData` in BankCategoriesReport.jsx) -/

/-- One row of the per-month per-category totals returned by the reporting
API (`expenseItems` / `incomeItems`). -/
structure CategoryItem where
  month : String
  name : String
  total : Int
  deriving DecidableEq

/-- One entry of a month's ranked stack: `{name, value}`. -/
structure RankedEntry where
  name : String
  value : Int
  deriving DecidableEq

/-- The comparator of the stack sort: `(a, b) => b.value - a.value` sorts by
descending value.  `stackOrder a b` holds when `a` may come no later than
`b`, i.e. `a.value ≥ b.value`. -/
def stackOrder (a b : RankedEntry) : Prop := b.value ≤ a.value

instance : DecidableRel stackOrder := fun a b =>
  inferInstanceAs (Decidable (b.value ≤ a.value))

instance : IsTotal RankedEntry stackOrder :=
  ⟨fun a b => le_total b.value a.value⟩

instance : IsTrans RankedEntry stackOrder :=
  ⟨fun _ _ _ h1 h2 => le_trans h2 h1⟩

/-- The list a month's stack is built from before sorting: the items of the
month whose category is selected, mapped to `{name, value}` entries, with
non-positive values dropped.  (`Number(item.total || 0)` is the identity on
integer totals.) -/
def preStack (items : List CategoryItem) (selected : Finset String) (month : String) :
    List RankedEntry :=
  ((items.filter (fun it => decide (it.month = month) && decide (it.name ∈ selected))).map
    (fun it => ⟨it.name, it.total⟩)).filter (fun e => decide (0 < e.value))

/-- A month's ranked stack: `preStack` sorted by descending value.
JavaScript's `Array.prototype.sort` is stable, so entries with equal
values keep their relative order from `preStack`; `List.insertionSort`
with `stackOrder` has exactly this behaviour. -/
def buildStack (items : List CategoryItem) (selected : Finset String) (month : String) :
    List RankedEntry :=
  (preStack items selected month).insertionSort stackOrder

/-- `Array.from(new Set(cashflowItems.map(i => i.month))).sort()`: the
distinct months of the cash-flow series, sorted ascending. -/
def chartMonths (cashflowMonths : List String) : List String :=
  cashflowMonths.dedup.insertionSort (· ≤ ·)

/-- The inputs of `chartData`: the cash-flow months (only the `month` field
of `cashflowItems` is used), the raw per-direction items, and the two
selected-category sets produced by `applyRule`. -/
structure ChartInput where
  cashflowMonths : List String
  incomeItems : List CategoryItem
  expenseItems : List CategoryItem
  selectedIncome : Finset String
  selectedExpense : Finset String

/-- The intermediate `monthStacks` array: per month, its income and expense
stacks. -/
def monthStacks (input : ChartInput) : List (String × List RankedEntry × List RankedEntry) :=
  (chartMonths input.cashflowMonths).map (fun month =>
    (month, buildStack input.incomeItems input.selectedIncome month,
      buildStack input.expenseItems input.selectedExpense month))

/-- `maxIncomeRanks`: the running `Math.max` of the income stack lengths
over all months, starting at `0`. -/
def maxIncomeRanks (input : ChartInput) : Nat :=
  ((monthStacks input).map (fun s => s.2.1.length)).foldl max 0

/-- `maxExpenseRanks`: the running `Math.max` of the expense stack lengths
over all months, starting at `0`. -/
def maxExpenseRanks (input : ChartInput) : Nat :=
  ((monthStacks input).map (fun s => s.2.2.length)).foldl max 0

/-- The pair `(entry[\x7bdirection\x7d_rank_i], entry[\x7bdirection\x7d_rank_i_name])`
materialized for slot `i`: the stack entry's value and name when the stack
reaches index `i`, else `0` and `null`. -/
def rankSlot (stack : List RankedEntry) (i : Nat) : Int × Option String :=
  match stack.get? i with
  | some item => (item.value, some item.name)
  | Option.none => (0, Option.none)

/-- All positional rank fields of one month, indices `0 .. maxRanks - 1`. -/
def rankSlots (stack : List RankedEntry) (maxRanks : Nat) : List (Int × Option String) :=
  (List.range maxRanks).map (rankSlot stack)

/-- One element of `chartData` (the rendering-only `label` field is
omitted). -/
structure MonthEntry where
  month : String
  incomeTotal : Int
  expenseTotal : Int
  incomeStack : List RankedEntry
  expenseStack : List RankedEntry
  incomeRanks : List (Int × Option String)
  expenseRanks : List (Int × Option String)
  deriving DecidableEq

/-- `chartData`: one entry per month with the per-direction totals, stacks
and positional rank fields padded to the per-direction matrix width. -/
def chartData (input : ChartInput) : List MonthEntry :=
  (monthStacks input).map (fun s =>
    { month := s.1,
      incomeTotal := (s.2.1.map (fun e => e.value)).foldl (· + ·) 0,
      expenseTotal := (s.2.2.map (fun e => e.value)).foldl (· + ·) 0,
      incomeStack := s.2.1,
      expenseStack := s.2.2,
      incomeRanks := rankSlots s.2.1 (maxIncomeRanks input),
      expenseRanks := rankSlots s.2.2 (maxExpenseRanks input) })


/-! ### Trend summary (the per-category trend drawer in BankCategoriesReport.jsx) -/

/-- One point of the twelve-month trend series: `{month, total}` (the
rendering-only `label` field is omitted). -/
structure TrendPoint where
  month : String
  total : Int
  deriving DecidableEq

/-- `String(index + 1).padStart(2, "0")`. -/
def pad2 (n : Nat) : String :=
  if n < 10 then "0" ++ toString n else toString n

/-- `trendMonths`: the twelve calendar months `year-01 .. year-12`. -/
def trendMonths (year : String) : List String :=
  (List.range 12).map (fun index => year ++ "-" ++ pad2 (index + 1))

/-- The `totals` map of the trend series: the source rows of the selected
category written month-by-month into a `Map`, later writes overriding
earlier ones. -/
def trendTotals (source : List CategoryItem) (nm : String) : String → Option Int :=
  (source.filter (fun it => decide (it.name = nm))).foldl
    (fun acc it => fun month => if month = it.month then some it.total else acc month)
    (fun _ => Option.none)

/-- `trendSeries`: one point per calendar month of the year, with total `0`
for months the map does not cover (`totals.get(month) || 0`). -/
def trendSeries (source : List CategoryItem) (nm year : String) : List TrendPoint :=
  (trendMonths year).map (fun month => ⟨month, (trendTotals source nm month).getD 0⟩)

/-- `trendActiveSeries`: the points with strictly positive total. -/
def trendActiveSeries (series : List TrendPoint) : List TrendPoint :=
  series.filter (fun p => decide (0 < p.total))

/-- `trendTotal`: the sum of the active points' totals. -/
def trendTotal (series : List TrendPoint) : Int :=
  (trendActiveSeries series).foldl (fun s p => s + p.total) 0

/-- `trendAverage = trendTotal / (trendActiveSeries.length || 1)`. -/
def trendAverage (series : List TrendPoint) : ℚ :=
  (trendTotal series : ℚ) /
    (if (trendActiveSeries series).length = 0 then 1
     else ((trendActiveSeries series).length : ℚ))

/-- The reduce `(max, item) => (item.total > max.total ? item : max)`. -/
def reduceHighest (acc : TrendPoint) : List TrendPoint → TrendPoint
  | [] => acc
  | x :: xs => reduceHighest (if acc.total < x.total then x else acc) xs

/-- The reduce `(min, item) => (item.total < min.total ? item : min)`. -/
def reduceLowest (acc : TrendPoint) : List TrendPoint → TrendPoint
  | [] => acc
  | x :: xs => reduceLowest (if x.total < acc.total then x else acc) xs

/-- `trendHighest`: the reduce over the active series seeded with its first
element (`null` when the active series is empty); the seed is also the
first element visited, a no-op. -/
def trendHighest (series : List TrendPoint) : Option TrendPoint :=
  match trendActiveSeries series with
  | [] => Option.none
  | x :: xs => some (reduceHighest x (x :: xs))

/-- `trendLowest`, symmetric to `trendHighest`. -/
def trendLowest (series : List TrendPoint) : Option TrendPoint :=
  match trendActiveSeries series with
  | [] => Option.none
  | x :: xs => some (reduceLowest x (x :: xs))

/-! ### Concrete inputs used by witnesses -/

/-- A chart input with three active income categories in `2025-01` and one
in `2025-02`. -/
def padInput : ChartInput :=
  ⟨["2025-01", "2025-02"],
   [⟨"2025-01", "A", 30⟩, ⟨"2025-01", "B", 20⟩, ⟨"2025-01", "C", 10⟩, ⟨"2025-02", "A", 7⟩],
   [], {"A", "B", "C"}, ∅⟩

/-- The `2025-02` entry of `chartData padInput`: its income stack has one
entry while `maxIncomeRanks padInput = 3`, so slots 1 and 2 are padded. -/
def padEntry : MonthEntry :=
  ⟨"2025-02", 7, 0, [⟨"A", 7⟩], [],
   [(7, some "A"), (0, Option.none), (0, Option.none)], []⟩

/-- The trend source of the summary example: `Food` totals 100 in January
and 200 in March of 2025. -/
def trendSource : List CategoryItem :=
  [⟨"2025-01", "Food", 100⟩, ⟨"2025-03", "Food", 200⟩]

/-! ### Basic lemmas about the rule store -/

/-- Normalizing the stored image of an already-normalized rule is the identity. -/
theorem normalizeRule_ruleToRaw (r : Rule) : normalizeRule (ruleToRaw r) = r := by
  obtain ⟨m, e, i⟩ := r
  cases m <;> rfl


/-- Membership in `applyRule`, by rule mode. -/
theorem mem_applyRule (rule : Rule) (names : List String) (nm : String) :
    nm ∈ applyRule rule (.arr names) ↔
      nm ∈ names ∧
        (match rule.mode with
         | Mode.all => nm ∉ rule.excluded
         | Mode.none => nm ∈ rule.included
         | Mode.custom => nm ∈ rule.included) := by
  cases h : rule.mode <;>
    simp [applyRule, h, List.mem_filter]

/-! ### Claim theorems: rule store -/

/-- C1 (counterexample): for the `none`-mode rule
`{mode: "none", excluded: [], included: ["A", "B"]}` the name `"A"` is
checked, toggling it leaves `included = ["B"] ≠ []`, yet the resulting
mode is `none`, not `custom` as the claim requires. -/
theorem toggleRule_none_stays_none_cex :
    isCategoryChecked ⟨Mode.none, [], ["A", "B"]⟩ "A" = true ∧
    (toggleRule ⟨Mode.none, [], ["A", "B"]⟩ "A").included = ["B"] ∧
    (toggleRule ⟨Mode.none, [], ["A", "B"]⟩ "A").mode ≠ Mode.custom := by
  decide

/-- C1 (amended): applying `toggleRule` to a checked name of a rule in
`none` mode removes the name from `included` and the resulting rule is
`{mode: "none", excluded: [], included: included minus the name}` — the
mode stays `none` whether or not `included` became empty. -/
theorem toggleRule_none_checked (r : Rule) (nm : String)
    (hm : r.mode = Mode.none) (hc : isCategoryChecked r nm = true) :
    toggleRule r nm = ⟨Mode.none, [], r.included.filter (fun item => decide (item ≠ nm))⟩ ∧
      nm ∉ (toggleRule r nm).included := by
  have h1 : toggleRule r nm
      = ⟨Mode.none, [], r.included.filter (fun item => decide (item ≠ nm))⟩ := by
    unfold toggleRule
    rw [hm]
    simp [hc]
  refine ⟨h1, ?_⟩
  rw [h1]
  simp

/-- C1 (witness): the amended statement at the counterexample's input. -/
theorem toggleRule_none_checked_witness :
    toggleRule ⟨Mode.none, [], ["A", "B"]⟩ "A"
        = ⟨Mode.none, [], (["A", "B"] : List String).filter (fun item => decide (item ≠ "A"))⟩ ∧
      "A" ∉ (toggleRule ⟨Mode.none, [], ["A", "B"]⟩ "A").included :=
  toggleRule_none_checked ⟨Mode.none, [], ["A", "B"]⟩ "A" rfl (by decide)

/-- C3: saving a structurally valid pair of per-direction rules and loading
it back yields, for each direction, a rule that selects the same subset as
the original under `applyRule`, for every universe of available names.
Structurally valid persisted rules are exactly the stored images
`ruleToRaw income` / `ruleToRaw expense` of well-formed rules. -/
theorem saveLoad_roundtrip (income expense : Rule) (avail : JSArray) :
    applyRule (loadBankCategoryRules
        (saveBankCategoryRules ⟨ruleToRaw income, ruleToRaw expense⟩)).income avail
      = applyRule income avail ∧
    applyRule (loadBankCategoryRules
        (saveBankCategoryRules ⟨ruleToRaw income, ruleToRaw expense⟩)).expense avail
      = applyRule expense avail := by
  constructor <;>
    simp [saveBankCategoryRules, loadBankCategoryRules, normalizeRule_ruleToRaw]

/-- C5: for every universe of available names, `applyRule` in `all` mode
selects exactly the available names not in `excluded` (so a brand-new name
is included without mutating the rule), while in `none`/`custom` mode it
selects exactly the available names in `included` (so a brand-new name
never appears). -/
theorem applyRule_mode_semantics (rule : Rule) (names : List String) (nm : String) :
    (rule.mode = Mode.all →
      (nm ∈ applyRule rule (.arr names) ↔ nm ∈ names ∧ nm ∉ rule.excluded)) ∧
    (rule.mode = Mode.none ∨ rule.mode = Mode.custom →
      (nm ∈ applyRule rule (.arr names) ↔ nm ∈ names ∧ nm ∈ rule.included)) := by
  constructor
  · intro h
    rw [mem_applyRule, h]
  · rintro (h | h) <;> rw [mem_applyRule, h]

/-- C5 (witness): an `all`-mode rule excluding `"X"` selects the brand-new
name `"Y"`, and a `custom`-mode rule including only `"A"` does not select
the brand-new name `"Y"`. -/
theorem applyRule_mode_semantics_witness :
    "Y" ∈ applyRule ⟨Mode.all, ["X"], []⟩ (.arr ["X", "Y"]) ∧
    "Y" ∉ applyRule ⟨Mode.custom, [], ["A"]⟩ (.arr ["A", "Y"]) := by
  constructor
  · exact ((applyRule_mode_semantics ⟨Mode.all, ["X"], []⟩ ["X", "Y"] "Y").1 rfl).mpr
      (by decide)
  · intro hmem
    have h := ((applyRule_mode_semantics ⟨Mode.custom, [], ["A"]⟩ ["A", "Y"] "Y").2
      (Or.inr rfl)).mp hmem
    exact absurd h.2 (by decide)

/-- C6 (counterexample): the persisted income member
`{mode: "bogus", excluded: ["X"], included: []}` is structurally invalid,
yet `loadBankCategoryRules` does not substitute `defaultRule()` for it: it
field-wise normalizes it to `{mode: "all", excluded: ["X"], included: []}`. -/
theorem load_invalid_shape_not_default_cex :
    ¬ structValid (RawRule.obj ⟨some "bogus", some ["X"], some []⟩) ∧
    (loadBankCategoryRules (.parsed (.obj ⟨some "bogus", some ["X"], some []⟩)
        (ruleToRaw defaultRule))).income ≠ defaultRule ∧
    (loadBankCategoryRules (.parsed (.obj ⟨some "bogus", some ["X"], some []⟩)
        (ruleToRaw defaultRule))).income = ⟨Mode.all, ["X"], []⟩ := by
  decide

/-- C6 (amended): `loadBankCategoryRules` is total (it never raises) and
degrades per direction: an absent key or unparseable payload yields the
default pair; a direction whose member is falsy or not an object gets
`defaultRule()` while the other direction is unaffected; a direction that
is an object is field-wise normalized (an unrecognized `mode` becomes
`"all"`, non-array `excluded`/`included` become `[]`) rather than being
replaced by `defaultRule()`.  In particular a valid stored income rule
next to an invalid expense member yields the real income rule and a
default expense rule. -/
theorem load_degrades_per_direction (inc exp : RawRule) (o : RawRuleObj) (m : String)
    (hm1 : m ≠ "all") (hm2 : m ≠ "none") (hm3 : m ≠ "custom") :
    loadBankCategoryRules .absent = ⟨defaultRule, defaultRule⟩ ∧
    loadBankCategoryRules .unparseable = ⟨defaultRule, defaultRule⟩ ∧
    loadBankCategoryRules (.parsed inc .invalid) = ⟨normalizeRule inc, defaultRule⟩ ∧
    loadBankCategoryRules (.parsed .invalid exp) = ⟨defaultRule, normalizeRule exp⟩ ∧
    normalizeRule (.obj ⟨some m, o.excluded, o.included⟩)
      = ⟨Mode.all, o.excluded.getD [], o.included.getD []⟩ ∧
    loadBankCategoryRules (.parsed (ruleToRaw ⟨Mode.custom, [], ["Food"]⟩) .invalid)
      = ⟨⟨Mode.custom, [], ["Food"]⟩, defaultRule⟩ := by
  refine ⟨rfl, rfl, rfl, rfl, ?_, ?_⟩
  · simp [normalizeRule, hm1, hm2, hm3]
  · simp [loadBankCategoryRules, normalizeRule_ruleToRaw]
    rfl

/-- C6 (witness): the amended statement at `mode = "bogus"` with a
non-array `excluded` and an array `included`. -/
theorem load_degrades_per_direction_witness :
    loadBankCategoryRules .absent = ⟨defaultRule, defaultRule⟩ ∧
    loadBankCategoryRules .unparseable = ⟨defaultRule, defaultRule⟩ ∧
    loadBankCategoryRules (.parsed .invalid .invalid) = ⟨normalizeRule .invalid, defaultRule⟩ ∧
    loadBankCategoryRules (.parsed .invalid .invalid) = ⟨defaultRule, normalizeRule .invalid⟩ ∧
    normalizeRule (.obj ⟨some "bogus", Option.none, some ["A"]⟩)
      = ⟨Mode.all, (Option.none : Option (List String)).getD [], (some ["A"]).getD []⟩ ∧
    loadBankCategoryRules (.parsed (ruleToRaw ⟨Mode.custom, [], ["Food"]⟩) .invalid)
      = ⟨⟨Mode.custom, [], ["Food"]⟩, defaultRule⟩ :=
  load_degrades_per_direction .invalid .invalid ⟨some "bogus", Option.none, some ["A"]⟩
    "bogus" (by decide) (by decide) (by decide)

/-- C9: `isCategoryChecked` reports any falsy name (the empty string) as
unchecked regardless of the rule, while `applyRule` on an `all`-mode rule
with empty `excluded` does include an empty-string member of the
universe — so checked-state and `applyRule` membership disagree there. -/
theorem isCategoryChecked_falsy (r : Rule) :
    isCategoryChecked r "" = false ∧
    "" ∈ applyRule ⟨Mode.all, [], []⟩ (.arr [""]) ∧
    isCategoryChecked ⟨Mode.all, [], []⟩ "" = false := by
  refine ⟨?_, by decide, by decide⟩
  simp [isCategoryChecked]

/-- C10: `applyRule` always returns a subset of the given universe (even
when `included` mentions names outside it), and returns the empty set when
`availableNames` is not an array. -/
theorem applyRule_subset (rule : Rule) (names : List String) :
    applyRule rule (.arr names) ⊆ names.toFinset ∧
    applyRule rule .notArray = ∅ := by
  refine ⟨fun nm hnm => ?_, rfl⟩
  rw [List.mem_toFinset]
  exact ((mem_applyRule rule names nm).mp hnm).1

/-- C8 (counterexample): toggling the falsy name `""` twice from the
`custom`-mode rule `{included: ["A"]}` never crosses into `none` (the
intermediate mode is `custom`), yet it appends `""` to `included` twice —
`isCategoryChecked` treats a falsy name as unchecked both times — so the
selected set over the universe `["A", ""]` gains `""`. -/
theorem toggleRule_involution_cex :
    (toggleRule ⟨Mode.custom, [], ["A"]⟩ "").mode ≠ Mode.none ∧
    applyRule (toggleRule (toggleRule ⟨Mode.custom, [], ["A"]⟩ "") "") (.arr ["A", ""])
      ≠ applyRule ⟨Mode.custom, [], ["A"]⟩ (.arr ["A", ""]) := by
  decide

/-- Unfolding of `toggleRule` on a `custom`-mode rule. -/
theorem toggleRule_custom_eq (exc inc : List String) (nm : String) :
    toggleRule ⟨Mode.custom, exc, inc⟩ nm =
      if isCategoryChecked ⟨Mode.custom, exc, inc⟩ nm then
        (if (inc.filter (fun item => decide (item ≠ nm))).length = 0 then
          ⟨Mode.none, [], []⟩
        else ⟨Mode.custom, [], inc.filter (fun item => decide (item ≠ nm))⟩)
      else ⟨Mode.custom, [], inc ++ [nm]⟩ := rfl

/-- `isCategoryChecked` on a `custom`-mode rule with a non-falsy name is
membership in `included`. -/
theorem isCategoryChecked_custom (exc inc : List String) (nm : String) (hnm : nm ≠ "") :
    isCategoryChecked ⟨Mode.custom, exc, inc⟩ nm = decide (nm ∈ inc) := by
  simp [isCategoryChecked, hnm]

/-- C8 (amended): for every `custom`-mode rule and every non-falsy name
(`nm ≠ ""`), toggling the name twice — provided the first toggle does not
cross into `none` mode — yields a rule selecting the same subset as the
original under `applyRule`, for every universe of available names. -/
theorem toggleRule_involution_custom (r : Rule) (nm : String) (names : List String)
    (hmode : r.mode = Mode.custom) (hnm : nm ≠ "")
    (hmid : (toggleRule r nm).mode ≠ Mode.none) :
    applyRule (toggleRule (toggleRule r nm) nm) (.arr names)
      = applyRule r (.arr names) := by
  obtain ⟨m, exc, inc⟩ := r
  subst hmode
  by_cases hc : nm ∈ inc
  · -- first toggle removes the (checked) name; by `hmid` the remainder is
    -- non-empty, so the intermediate rule is `custom`; the second toggle
    -- re-appends the name.
    rw [toggleRule_custom_eq, isCategoryChecked_custom _ _ _ hnm] at hmid ⊢
    rw [if_pos (by simpa using hc)] at hmid ⊢
    have hne : ¬ (inc.filter (fun item => decide (item ≠ nm))).length = 0 := by
      intro hlen
      rw [if_pos hlen] at hmid
      exact hmid rfl
    rw [if_neg hne] at hmid ⊢
    rw [toggleRule_custom_eq, isCategoryChecked_custom _ _ _ hnm,
      if_neg (by simp)]
    ext x
    rw [mem_applyRule, mem_applyRule]
    simp only [List.mem_append, List.mem_filter, List.mem_singleton, decide_eq_true_eq]
    constructor
    · rintro ⟨hx, (⟨hxi, _⟩ | rfl)⟩
      · exact ⟨hx, hxi⟩
      · exact ⟨hx, hc⟩
    · rintro ⟨hx, hxi⟩
      by_cases hxe : x = nm
      · exact ⟨hx, Or.inr hxe⟩
      · exact ⟨hx, Or.inl ⟨hxi, hxe⟩⟩
  · -- first toggle appends the (unchecked) name; the second removes it,
    -- and when nothing remains the rule collapses to `none`, which selects
    -- the same (empty) `included` set.
    rw [toggleRule_custom_eq, isCategoryChecked_custom _ _ _ hnm,
      if_neg (by simpa using hc)]
    have hinc : inc.filter (fun item => decide (item ≠ nm)) = inc := by
      rw [List.filter_eq_self]
      intro a ha
      simp only [decide_eq_true_eq]
      intro h
      exact hc (h ▸ ha)
    have hsing : ([nm] : List String).filter (fun item => decide (item ≠ nm)) = [] := by
      simp
    have hfilter : (inc ++ [nm]).filter (fun item => decide (item ≠ nm)) = inc := by
      rw [List.filter_append, hinc, hsing, List.append_nil]
    rw [toggleRule_custom_eq, isCategoryChecked_custom _ _ _ hnm,
      if_pos (by simp), hfilter]
    rcases Decidable.em (inc.length = 0) with hlen | hlen
    · have hincnil : inc = [] := List.length_eq_zero.mp hlen
      subst hincnil
      have hz : ([] : List String).length = 0 := rfl
      rw [if_pos hz]
      ext x
      rw [mem_applyRule, mem_applyRule]
    · rw [if_neg hlen]
      ext x
      rw [mem_applyRule, mem_applyRule]

/-- C8 (witness): the amended statement for the rule
`{mode: "custom", included: ["A", "B"]}`, the name `"A"`, and the universe
`["A", "B", "C"]`; the first toggle leaves `included = ["B"]`, so the
intermediate mode is `custom`. -/
theorem toggleRule_involution_custom_witness :
    applyRule (toggleRule (toggleRule ⟨Mode.custom, [], ["A", "B"]⟩ "A") "A")
        (.arr ["A", "B", "C"])
      = applyRule ⟨Mode.custom, [], ["A", "B"]⟩ (.arr ["A", "B", "C"]) :=
  toggleRule_involution_custom ⟨Mode.custom, [], ["A", "B"]⟩ "A" ["A", "B", "C"]
    rfl (by decide) (by decide)

/-! ### Stability of the stack sort -/

/-- Inserting an entry whose value is not `v` does not disturb the
value-`v` entries. -/
theorem filter_orderedInsert_of_ne (x : RankedEntry) (L : List RankedEntry) (v : Int)
    (hx : x.value ≠ v) :
    (L.orderedInsert stackOrder x).filter (fun e => decide (e.value = v))
      = L.filter (fun e => decide (e.value = v)) := by
  induction L with
  | nil => simp [List.orderedInsert, hx]
  | cons b l ih =>
    rw [List.orderedInsert]
    split
    · simp [List.filter_cons, hx]
    · simp [List.filter_cons, ih]

/-- Inserting an entry before the first entry of no larger value places it
exactly in front of the other entries sharing its value. -/
theorem filter_orderedInsert_of_eq (x : RankedEntry) (L : List RankedEntry) :
    (L.orderedInsert stackOrder x).filter (fun e => decide (e.value = x.value))
      = x :: L.filter (fun e => decide (e.value = x.value)) := by
  induction L with
  | nil => simp [List.orderedInsert]
  | cons b l ih =>
    rw [List.orderedInsert]
    split
    · simp [List.filter_cons]
    · rename_i h
      have hb : ¬ (b.value = x.value) := by
        intro hbv
        exact h (le_of_eq hbv)
      simp [List.filter_cons, hb, ih]

/-- Stability of the stack sort: for every value `v`, the value-`v` entries
of the sorted list appear in exactly their input order. -/
theorem insertionSort_filter_value (l : List RankedEntry) (v : Int) :
    (l.insertionSort stackOrder).filter (fun e => decide (e.value = v))
      = l.filter (fun e => decide (e.value = v)) := by
  induction l with
  | nil => rfl
  | cons x xs ih =>
    rw [List.insertionSort]
    by_cases hx : x.value = v
    · subst hx
      rw [filter_orderedInsert_of_eq, ih, List.filter_cons]
      simp
    · rw [filter_orderedInsert_of_ne _ _ _ hx, ih, List.filter_cons]
      simp [hx]

/-! ### Claim theorems: the stack sort (C2) -/

/-- C2 (counterexample): with the single month `2025-01`, income items
`[{B, 5}, {A, 5}]` (both selected, equal positive totals), the month's
ranked stack is `[{B, 5}, {A, 5}]` — the stable sort keeps the input
order, `B` before `A`, even though `"A" < "B"`; the claimed ascending
name tie-break does not happen. -/
theorem chartData_tie_order_cex :
    ((chartData ⟨["2025-01"], [⟨"2025-01", "B", 5⟩, ⟨"2025-01", "A", 5⟩], [],
        {"A", "B"}, ∅⟩).map (fun e => e.incomeStack))
      = [[⟨"B", 5⟩, ⟨"A", 5⟩]] ∧ ("A" : String) < "B" := by
  constructor
  · rfl
  · rw [String.lt_iff_toList_lt]
    decide

/-- C2 (amended): each month's ranked stack is sorted by descending value,
and entries with equal value keep their relative order from the filtered
input items (`preStack`) — the sort is stable, with no name tie-break.
The output is a pure function of the input, hence identical across
repeated calls. -/
theorem buildStack_sorted_and_stable (items : List CategoryItem) (selected : Finset String)
    (month : String) (v : Int) :
    List.Sorted stackOrder (buildStack items selected month) ∧
    (buildStack items selected month).filter (fun e => decide (e.value = v))
      = (preStack items selected month).filter (fun e => decide (e.value = v)) := by
  constructor
  · exact List.sorted_insertionSort stackOrder (preStack items selected month)
  · exact insertionSort_filter_value (preStack items selected month) v

/-! ### Folded maxima -/

/-- The fold of `max` is at least its initial value. -/
theorem init_le_foldl_max (l : List Nat) (a : Nat) : a ≤ l.foldl max a := by
  induction l generalizing a with
  | nil => exact le_refl a
  | cons x xs ih => exact le_trans (le_max_left a x) (ih (max a x))

/-- Every list element is at most the fold of `max`. -/
theorem le_foldl_max (l : List Nat) (a : Nat) : ∀ x ∈ l, x ≤ l.foldl max a := by
  induction l generalizing a with
  | nil => intro x hx; cases hx
  | cons y ys ih =>
    intro x hx
    rcases List.mem_cons.mp hx with rfl | hx
    · exact le_trans (le_max_right a x) (init_le_foldl_max ys (max a x))
    · exact ih (max a y) x hx

/-- The fold of `max` is the initial value or attained by a list element. -/
theorem foldl_max_mem (l : List Nat) (a : Nat) : l.foldl max a = a ∨ l.foldl max a ∈ l := by
  induction l generalizing a with
  | nil => exact Or.inl rfl
  | cons y ys ih =>
    have hstep : (y :: ys).foldl max a = ys.foldl max (max a y) := rfl
    rcases ih (max a y) with h | h
    · rcases Nat.le_total a y with hay | hya
      · right
        rw [hstep, h, max_eq_right hay]
        exact List.mem_cons_self y ys
      · left
        rw [hstep, h, max_eq_left hya]
    · right
      rw [hstep]
      exact List.mem_cons_of_mem y h

/-! ### Rank slots -/

/-- `rankSlots` always materializes exactly `maxRanks` fields. -/
theorem rankSlots_length (stack : List RankedEntry) (maxRanks : Nat) :
    (rankSlots stack maxRanks).length = maxRanks := by
  simp [rankSlots]

/-- The slot at every index below `maxRanks`. -/
theorem rankSlots_get? (stack : List RankedEntry) (maxRanks i : Nat) (h : i < maxRanks) :
    (rankSlots stack maxRanks).get? i = some (rankSlot stack i) := by
  rw [rankSlots, List.get?_eq_getElem?, List.getElem?_map, List.getElem?_range h]
  rfl

/-- Beyond the end of the stack a slot holds value `0` and no name. -/
theorem rankSlot_pad (stack : List RankedEntry) (i : Nat) (h : stack.length ≤ i) :
    rankSlot stack i = (0, Option.none) := by
  rw [rankSlot, List.get?_eq_none.mpr h]

/-! ### Claim theorem: padding to the matrix width (C4) -/

/-- C4: for every input, `maxIncomeRanks`/`maxExpenseRanks` are the maxima
of the per-month stack lengths (every stack is no longer, and unless the
maximum is `0` some month attains it); every month materializes exactly
`maxRanks` positional slots per direction; a slot below the month's stack
length carries that entry's value and name, and a slot at or beyond the
stack length carries value `0` and no name. -/
theorem chartData_padding (input : ChartInput) :
    (∀ e ∈ chartData input,
      e.incomeStack.length ≤ maxIncomeRanks input ∧
      e.expenseStack.length ≤ maxExpenseRanks input ∧
      e.incomeRanks.length = maxIncomeRanks input ∧
      e.expenseRanks.length = maxExpenseRanks input ∧
      (∀ i, i < maxIncomeRanks input →
        e.incomeRanks.get? i = some (rankSlot e.incomeStack i)) ∧
      (∀ i, i < maxExpenseRanks input →
        e.expenseRanks.get? i = some (rankSlot e.expenseStack i)) ∧
      (∀ i, e.incomeStack.length ≤ i → i < maxIncomeRanks input →
        e.incomeRanks.get? i = some (0, Option.none)) ∧
      (∀ i, e.expenseStack.length ≤ i → i < maxExpenseRanks input →
        e.expenseRanks.get? i = some (0, Option.none))) ∧
    (maxIncomeRanks input = 0 ∨
      ∃ e ∈ chartData input, e.incomeStack.length = maxIncomeRanks input) ∧
    (maxExpenseRanks input = 0 ∨
      ∃ e ∈ chartData input, e.expenseStack.length = maxExpenseRanks input) := by
  refine ⟨?_, ?_, ?_⟩
  · intro e he
    obtain ⟨s, hs, rfl⟩ := List.mem_map.mp he
    refine ⟨?_, ?_, rankSlots_length _ _, rankSlots_length _ _, ?_, ?_, ?_, ?_⟩
    · exact le_foldl_max _ 0 s.2.1.length (List.mem_map_of_mem _ hs)
    · exact le_foldl_max _ 0 s.2.2.length (List.mem_map_of_mem _ hs)
    · intro i hi
      exact rankSlots_get? s.2.1 (maxIncomeRanks input) i hi
    · intro i hi
      exact rankSlots_get? s.2.2 (maxExpenseRanks input) i hi
    · intro i hlen hi
      rw [rankSlots_get? s.2.1 (maxIncomeRanks input) i hi, rankSlot_pad s.2.1 i hlen]
    · intro i hlen hi
      rw [rankSlots_get? s.2.2 (maxExpenseRanks input) i hi, rankSlot_pad s.2.2 i hlen]
  · rcases foldl_max_mem ((monthStacks input).map (fun s => s.2.1.length)) 0 with h | h
    · exact Or.inl h
    · obtain ⟨s, hs, hlen⟩ := List.mem_map.mp h
      exact Or.inr ⟨_, List.mem_map_of_mem _ hs, hlen⟩
  · rcases foldl_max_mem ((monthStacks input).map (fun s => s.2.2.length)) 0 with h | h
    · exact Or.inl h
    · obtain ⟨s, hs, hlen⟩ := List.mem_map.mp h
      exact Or.inr ⟨_, List.mem_map_of_mem _ hs, hlen⟩

/-- C4 (witness): on `padInput` (three active income categories in
`2025-01`, one in `2025-02`) the matrix width is `3` and the `2025-02`
entry's rank-1 and rank-2 slots hold value `0` and no name. -/
theorem chartData_padding_witness :
    maxIncomeRanks padInput = 3 ∧
    padEntry ∈ chartData padInput ∧
    padEntry.incomeStack.length = 1 ∧
    padEntry.incomeRanks.get? 1 = some ((0 : Int), Option.none) ∧
    padEntry.incomeRanks.get? 2 = some ((0 : Int), Option.none) := by
  have hcm : chartMonths ["2025-01", "2025-02"] = ["2025-01", "2025-02"] := by
    have hd : (["2025-01", "2025-02"] : List String).dedup = ["2025-01", "2025-02"] := by
      decide
    rw [chartMonths, hd]
    refine List.Sorted.insertionSort_eq ?_
    refine List.sorted_cons.mpr ⟨?_, List.sorted_singleton _⟩
    intro b hb
    rw [List.mem_singleton] at hb
    subst hb
    rw [String.le_iff_toList_le]
    decide
  have hms : monthStacks padInput
      = [("2025-01", [(⟨"A", 30⟩ : RankedEntry), ⟨"B", 20⟩, ⟨"C", 10⟩], ([] : List RankedEntry)),
         ("2025-02", [⟨"A", 7⟩], [])] := by
    have h0 : monthStacks padInput
        = (chartMonths ["2025-01", "2025-02"]).map (fun month =>
            (month, buildStack padInput.incomeItems padInput.selectedIncome month,
              buildStack padInput.expenseItems padInput.selectedExpense month)) := rfl
    rw [h0, hcm]
    rfl
  have hmaxI : maxIncomeRanks padInput = 3 := by
    rw [maxIncomeRanks, hms]
    decide
  have hmaxE : maxExpenseRanks padInput = 0 := by
    rw [maxExpenseRanks, hms]
    decide
  have hcd : chartData padInput
      = [⟨"2025-01", 60, 0, [⟨"A", 30⟩, ⟨"B", 20⟩, ⟨"C", 10⟩], [],
          [(30, some "A"), (20, some "B"), (10, some "C")], []⟩, padEntry] := by
    rw [chartData, hms, hmaxI, hmaxE]
    rfl
  have hmem : padEntry ∈ chartData padInput := by
    rw [hcd]
    exact List.mem_cons_of_mem _ (List.mem_cons_self _ _)
  have hpad := (chartData_padding padInput).1 padEntry hmem
  refine ⟨hmaxI, hmem, rfl, ?_, ?_⟩
  · exact hpad.2.2.2.2.2.2.1 1 (by decide) (by rw [hmaxI]; decide)
  · exact hpad.2.2.2.2.2.2.1 2 (by decide) (by rw [hmaxI]; decide)

/-! ### The trend reduces -/

/-- The running maximum of the trend reduce: the result bounds the seed and
every element, and is the first element of `seed :: l` attaining its
total. -/
theorem reduceHighest_spec (l : List TrendPoint) (acc : TrendPoint) :
    (∀ y ∈ acc :: l, y.total ≤ (reduceHighest acc l).total) ∧
    (acc :: l).find? (fun y => decide ((reduceHighest acc l).total ≤ y.total))
      = some (reduceHighest acc l) := by
  induction l generalizing acc with
  | nil =>
    constructor
    · intro y hy
      rw [List.mem_singleton] at hy
      subst hy
      exact le_refl _
    · rw [List.find?_cons_of_pos _ (by simp [reduceHighest])]
      rw [reduceHighest]
  | cons x xs ih =>
    by_cases h : acc.total < x.total
    · have hr : reduceHighest acc (x :: xs) = reduceHighest x xs := by
        rw [reduceHighest, if_pos h]
      obtain ⟨ihmax, ihfind⟩ := ih x
      rw [hr]
      constructor
      · intro y hy
        rcases List.mem_cons.mp hy with rfl | hy2
        · exact le_trans (le_of_lt h) (ihmax x (List.mem_cons_self x xs))
        · exact ihmax y hy2
      · have hacc : acc.total < (reduceHighest x xs).total :=
          lt_of_lt_of_le h (ihmax x (List.mem_cons_self x xs))
        rw [List.find?_cons_of_neg _ (by simpa using not_le.mpr hacc)]
        exact ihfind
    · have hx2 : x.total ≤ acc.total := not_lt.mp h
      have hr : reduceHighest acc (x :: xs) = reduceHighest acc xs := by
        rw [reduceHighest, if_neg h]
      obtain ⟨ihmax, ihfind⟩ := ih acc
      rw [hr]
      constructor
      · intro y hy
        rcases List.mem_cons.mp hy with rfl | hy2
        · exact ihmax _ (List.mem_cons_self _ _)
        · rcases List.mem_cons.mp hy2 with rfl | hy3
          · exact le_trans hx2 (ihmax _ (List.mem_cons_self _ _))
          · exact ihmax y (List.mem_cons_of_mem _ hy3)
      · by_cases hp : (reduceHighest acc xs).total ≤ acc.total
        · have h1 : (acc :: xs).find?
              (fun y => decide ((reduceHighest acc xs).total ≤ y.total)) = some acc := by
            rw [List.find?_cons_of_pos _ (by simpa using hp)]
          have hra : acc = reduceHighest acc xs := by
            have := h1.symm.trans ihfind
            exact Option.some.inj this
          rw [List.find?_cons_of_pos _ (by simpa using hp)]
          exact congrArg some hra
        · have hxp : ¬ (reduceHighest acc xs).total ≤ x.total :=
            fun hc => hp (le_trans hc hx2)
          have h2 : xs.find? (fun y => decide ((reduceHighest acc xs).total ≤ y.total))
              = some (reduceHighest acc xs) := by
            have h3 := ihfind
            rw [List.find?_cons_of_neg _ (by simpa using hp)] at h3
            exact h3
          rw [List.find?_cons_of_neg _ (by simpa using hp),
            List.find?_cons_of_neg _ (by simpa using hxp)]
          exact h2

/-- The running minimum of the trend reduce, symmetric to
`reduceHighest_spec`. -/
theorem reduceLowest_spec (l : List TrendPoint) (acc : TrendPoint) :
    (∀ y ∈ acc :: l, (reduceLowest acc l).total ≤ y.total) ∧
    (acc :: l).find? (fun y => decide (y.total ≤ (reduceLowest acc l).total))
      = some (reduceLowest acc l) := by
  induction l generalizing acc with
  | nil =>
    constructor
    · intro y hy
      rw [List.mem_singleton] at hy
      subst hy
      exact le_refl _
    · rw [List.find?_cons_of_pos _ (by simp [reduceLowest])]
      rw [reduceLowest]
  | cons x xs ih =>
    by_cases h : x.total < acc.total
    · have hr : reduceLowest acc (x :: xs) = reduceLowest x xs := by
        rw [reduceLowest, if_pos h]
      obtain ⟨ihmin, ihfind⟩ := ih x
      rw [hr]
      constructor
      · intro y hy
        rcases List.mem_cons.mp hy with rfl | hy2
        · exact le_trans (ihmin x (List.mem_cons_self x xs)) (le_of_lt h)
        · exact ihmin y hy2
      · have hacc : (reduceLowest x xs).total < acc.total :=
          lt_of_le_of_lt (ihmin x (List.mem_cons_self x xs)) h
        rw [List.find?_cons_of_neg _ (by simpa using not_le.mpr hacc)]
        exact ihfind
    · have hx2 : acc.total ≤ x.total := not_lt.mp h
      have hr : reduceLowest acc (x :: xs) = reduceLowest acc xs := by
        rw [reduceLowest, if_neg h]
      obtain ⟨ihmin, ihfind⟩ := ih acc
      rw [hr]
      constructor
      · intro y hy
        rcases List.mem_cons.mp hy with rfl | hy2
        · exact ihmin _ (List.mem_cons_self _ _)
        · rcases List.mem_cons.mp hy2 with rfl | hy3
          · exact le_trans (ihmin _ (List.mem_cons_self _ _)) hx2
          · exact ihmin y (List.mem_cons_of_mem _ hy3)
      · by_cases hp : acc.total ≤ (reduceLowest acc xs).total
        · have h1 : (acc :: xs).find?
              (fun y => decide (y.total ≤ (reduceLowest acc xs).total)) = some acc := by
            rw [List.find?_cons_of_pos _ (by simpa using hp)]
          have hra : acc = reduceLowest acc xs := by
            have := h1.symm.trans ihfind
            exact Option.some.inj this
          rw [List.find?_cons_of_pos _ (by simpa using hp)]
          exact congrArg some hra
        · have hxp : ¬ x.total ≤ (reduceLowest acc xs).total :=
            fun hc => hp (le_trans hx2 hc)
          have h2 : xs.find? (fun y => decide (y.total ≤ (reduceLowest acc xs).total))
              = some (reduceLowest acc xs) := by
            have h3 := ihfind
            rw [List.find?_cons_of_neg _ (by simpa using hp)] at h3
            exact h3
          rw [List.find?_cons_of_neg _ (by simpa using hp),
            List.find?_cons_of_neg _ (by simpa using hxp)]
          exact h2

/-- A duplicated head does not change `find?`. -/
theorem find?_cons_self {α : Type} (p : α → Bool) (x : α) (l : List α) :
    (x :: x :: l).find? p = (x :: l).find? p := by
  by_cases hp : p x = true
  · rw [List.find?_cons_of_pos _ hp, List.find?_cons_of_pos _ hp]
  · rw [List.find?_cons_of_neg _ hp]

/-! ### Claim theorem: trend summary statistics (C7) -/

/-- C7: the trend months are the twelve calendar months of the year in
chronological order and index the trend series; the total sums the active
months' totals; the average divides the total by `max 1` (number of active
months); the highest/lowest month is an active month with maximal/minimal
total and is the first such month in series order (everything before it is
strictly beaten), and both are `null` exactly when no active month
exists. -/
theorem trendSummary_active_months (source : List CategoryItem) (cname year : String)
    (series : List TrendPoint) :
    trendMonths year
      = (["01", "02", "03", "04", "05", "06", "07", "08", "09", "10", "11", "12"].map
          (fun suffix => year ++ "-" ++ suffix)) ∧
    (trendSeries source cname year).map (fun p => p.month) = trendMonths year ∧
    trendTotal series = ((trendActiveSeries series).map (fun p => p.total)).sum ∧
    trendAverage series
      = (trendTotal series : ℚ) / ((max 1 (trendActiveSeries series).length : Nat) : ℚ) ∧
    (trendActiveSeries series = [] →
      trendHighest series = Option.none ∧ trendLowest series = Option.none) ∧
    (∀ hi, trendHighest series = some hi →
      (∀ y ∈ trendActiveSeries series, y.total ≤ hi.total) ∧
      (trendActiveSeries series).find? (fun y => decide (hi.total ≤ y.total)) = some hi) ∧
    (∀ lo, trendLowest series = some lo →
      (∀ y ∈ trendActiveSeries series, lo.total ≤ y.total) ∧
      (trendActiveSeries series).find? (fun y => decide (y.total ≤ lo.total)) = some lo) ∧
    (trendActiveSeries series ≠ [] →
      (trendHighest series).isSome ∧ (trendLowest series).isSome) := by
  refine ⟨rfl, ?_, ?_, ?_, ?_, ?_, ?_, ?_⟩
  · rw [trendSeries, List.map_map]
    exact List.map_id _
  · rw [trendTotal, List.sum_eq_foldl, List.foldl_map]
  · rw [trendAverage]
    by_cases hl : (trendActiveSeries series).length = 0
    · rw [if_pos hl, hl]
      norm_num
    · rw [if_neg hl, Nat.max_eq_right (Nat.one_le_iff_ne_zero.mpr hl)]
  · intro hA
    constructor
    · rw [trendHighest, hA]
    · rw [trendLowest, hA]
  · intro hi hhi
    rcases hA : trendActiveSeries series with _ | ⟨x, xs⟩
    · rw [trendHighest, hA] at hhi
      cases hhi
    · rw [trendHighest, hA] at hhi
      obtain ⟨hmax, hfind⟩ := reduceHighest_spec (x :: xs) x
      have hhi2 : hi = reduceHighest x (x :: xs) := (Option.some.inj hhi).symm
      subst hhi2
      refine ⟨fun y hy => hmax y (List.mem_cons_of_mem x hy), ?_⟩
      rw [← find?_cons_self]
      exact hfind
  · intro lo hlo
    rcases hA : trendActiveSeries series with _ | ⟨x, xs⟩
    · rw [trendLowest, hA] at hlo
      cases hlo
    · rw [trendLowest, hA] at hlo
      obtain ⟨hmin, hfind⟩ := reduceLowest_spec (x :: xs) x
      have hlo2 : lo = reduceLowest x (x :: xs) := (Option.some.inj hlo).symm
      subst hlo2
      refine ⟨fun y hy => hmin y (List.mem_cons_of_mem x hy), ?_⟩
      rw [← find?_cons_self]
      exact hfind
  · intro hne
    rcases hA : trendActiveSeries series with _ | ⟨x, xs⟩
    · exact absurd hA hne
    · constructor
      · rw [trendHighest, hA]
        rfl
      · rw [trendLowest, hA]
        rfl

/-- C7 (witness): `Food` totals 100 in `2025-01`, nothing in `2025-02`, and
200 in `2025-03`; the summary gives total 300, average 150, highest
`2025-03`, lowest `2025-01`, and 200 bounds every active total. -/
theorem trendSummary_active_months_witness :
    trendTotal (trendSeries trendSource "Food" "2025") = 300 ∧
    trendAverage (trendSeries trendSource "Food" "2025") = 150 ∧
    trendHighest (trendSeries trendSource "Food" "2025") = some ⟨"2025-03", 200⟩ ∧
    trendLowest (trendSeries trendSource "Food" "2025") = some ⟨"2025-01", 100⟩ ∧
    (∀ y ∈ trendActiveSeries (trendSeries trendSource "Food" "2025"), y.total ≤ 200) := by
  have h := trendSummary_active_months trendSource "Food" "2025"
    (trendSeries trendSource "Food" "2025")
  have hhi : trendHighest (trendSeries trendSource "Food" "2025") = some ⟨"2025-03", 200⟩ := by
    decide
  have hlo : trendLowest (trendSeries trendSource "Food" "2025") = some ⟨"2025-01", 100⟩ := by
    decide
  have ht : trendTotal (trendSeries trendSource "Food" "2025") = 300 := by decide
  have hlen : (trendActiveSeries (trendSeries trendSource "Food" "2025")).length = 2 := by
    decide
  have havg : trendAverage (trendSeries trendSource "Food" "2025") = 150 := by
    rw [trendAverage, ht, hlen]
    norm_num
  exact ⟨ht, havg, hhi, hlo, (h.2.2.2.2.2.1 ⟨"2025-03", 200⟩ hhi).1⟩

end Tazrim
